import Mathlib

/-!
Shallow embedding of the JSON-constrained response protocol of this repository:
`validate_json_response`, `clean_json_response` and `send_json_request` from
`src/day_2/gigachat_json_api.py`, and the second copies of these helpers plus the
second `send_json_request` variant from `src/day_2/chatbot_gui.py`.

Python strings are modelled as `List Char`; dicts produced by `json.loads` as
association lists; decoded JSON values as `JsonValue`.  `json.loads` is Python
standard-library code, so it enters the model as an abstract decode function
carried by the execution context (`Ctx.loads`), exactly like the remote
completion provider (`Ctx.provider`), which the specification already treats as
an external collaborator returning scripted text sequences.
-/

/-- Python whitespace for `str.strip()` (the ASCII part; the exotic Unicode
space characters play no role in any claim). -/
def wsp (c : Char) : Bool :=
  c = ' ' || c = '\t' || c = '\n' || c = '\r' || c = '\x0b' || c = '\x0c'

/-- Left half of Python `str.strip()`. -/
def stripLeftPy (l : List Char) : List Char := l.dropWhile wsp

/-- Right half of Python `str.strip()`. -/
def stripRightPy (l : List Char) : List Char := (l.reverse.dropWhile wsp).reverse

/-- Python `str.strip()`. -/
def pyStrip (l : List Char) : List Char := stripRightPy (stripLeftPy l)

/-- Python `str.startswith` on character lists. -/
def startsWithL : List Char → List Char → Bool
  | [], _ => true
  | _ :: _, [] => false
  | p :: ps, a :: as => p = a && startsWithL ps as

/-- Python `str.endswith` on character lists. -/
def endsWithL (suf l : List Char) : Bool := startsWithL suf.reverse l.reverse

/-- Python `str.find` restricted to a single character: index of the first
occurrence, `none` standing for Python's `-1`. -/
def findL (c : Char) : List Char → Option Nat
  | [] => none
  | a :: as => if a = c then some 0 else (findL c as).map (· + 1)

/-- Python `str.rfind` restricted to a single character: index of the last
occurrence, `none` standing for Python's `-1`. -/
def rfindL (c : Char) (l : List Char) : Option Nat :=
  (findL c l.reverse).map (fun k => l.length - 1 - k)

/-- Python slice `l[a:b]` for `0 ≤ a ≤ b`. -/
def pySlice (l : List Char) (a b : Nat) : List Char := (l.drop a).take (b - a)

/-- Python substring containment (`needle in hay` for strings). -/
def containsSeq (needle : List Char) : List Char → Bool
  | [] => needle.isEmpty
  | a :: rest => startsWithL needle (a :: rest) || containsSeq needle rest

/-- Decoded JSON values as produced by `json.loads`. -/
inductive JsonValue where
  | str (s : String)
  | num (n : Int)
  | bool (b : Bool)
  | null
  | arr (elems : List JsonValue)
  | obj (fields : List (String × JsonValue))

/-- Python `v == s` for a decoded value `v` and a str literal `s`: Python
equality between a non-str value and a str is `False`. -/
def pyEqStr : JsonValue → String → Bool
  | .str t, s => t == s
  | _, _ => false

/-- Python dict as handed over by `json.loads`: an association list of fields. -/
abbrev PyDict := List (String × JsonValue)

/-- Python `d[k]` on a dict (first binding wins; dicts from `json.loads` have
unique keys, so this is exact). -/
def lookupKey : PyDict → String → Option JsonValue
  | [], _ => none
  | (k, v) :: rest, key => if k = key then some v else lookupKey rest key

/-- Python `k in d` on a dict. -/
def keyIn (d : PyDict) (k : String) : Bool := (lookupKey d k).isSome

/-- Python `isinstance(v, str)` on a decoded JSON value. -/
def isStrVal : JsonValue → Bool
  | .str _ => true
  | _ => false

/-- The `required_fields` list of `validate_json_response`
(`src/day_2/gigachat_json_api.py` line 82). -/
def required_fields : List String := ["answer", "key_points", "sentiment"]

/-- The `valid_sentiments` list of `validate_json_response` (line 99). -/
def valid_sentiments : List String := ["neutral", "positive", "negative"]

/-- Transcription of `validate_json_response`
(`src/day_2/gigachat_json_api.py` lines 72-103) on dict arguments, on which the
Python function is total: presence of the three required fields, `answer` a
string, `key_points` a list of strings, `sentiment` one of the three sentiment
strings.  After the presence guard every lookup succeeds, so the final match arm
is unreachable and mirrors Python's direct subscripting. -/
def validate_json_response (response_data : PyDict) : Bool :=
  if ! required_fields.all (fun field => keyIn response_data field) then false
  else
    match lookupKey response_data "answer",
          lookupKey response_data "key_points",
          lookupKey response_data "sentiment" with
    | some answerV, some keyPointsV, some sentimentV =>
      if ! isStrVal answerV then false
      else
        match keyPointsV with
        | .arr points =>
          if ! points.all isStrVal then false
          else if ! valid_sentiments.any (fun s => pyEqStr sentimentV s) then false
          else true
        | _ => false
    | _, _, _ => false

/-- Python TypeError shapes that `validate_json_response` hits on non-dict
input: `field in x` with `x` a number, bool or `None` raises
"argument of type ... is not iterable"; `x["answer"]` with `x` a str or list
raises "... indices must be integers". -/
inductive TypeErrKind where
  | argNotIterable
  | indicesMustBeIntegers
deriving DecidableEq, Repr

/-- Behaviour of the Python `validate_json_response` on an arbitrary decoded
value, dynamic-typing failure modes included: on a dict it returns a bool; on a
str, `field in s` is substring search and, if all three field names occur,
`s["answer"]` raises TypeError; on a list, `field in xs` is element search and,
if all three names are elements, `xs["answer"]` raises TypeError; on a number,
bool or `None`, the `in` test itself raises TypeError. -/
def validateFull : JsonValue → Except TypeErrKind Bool
  | .obj d => .ok (validate_json_response d)
  | .str s =>
    if required_fields.all (fun f => containsSeq f.toList s.toList) then
      .error .indicesMustBeIntegers
    else .ok false
  | .arr xs =>
    if required_fields.all (fun f => xs.any (fun x => pyEqStr x f)) then
      .error .indicesMustBeIntegers
    else .ok false
  | _ => .error .argNotIterable

/-- The markdown fence marker. -/
def fenceL : List Char := "```".toList

/-- The fence marker with the `json` language tag. -/
def fenceJsonL : List Char := "```json".toList

/-- Fence-marker stripping steps of `clean_json_response`
(`src/day_2/gigachat_json_api.py` lines 120-126): drop a leading ```` ```json ````
(7 characters) or ```` ``` ```` (3 characters), then drop a trailing
```` ``` ````. -/
def stripFenceMarkers (text : List Char) : List Char :=
  let text := if startsWithL fenceJsonL text then text.drop 7
              else if startsWithL fenceL text then text.drop 3
              else text
  if endsWithL fenceL text then text.take (text.length - 3) else text

/-- Outermost-brace slicing step of `clean_json_response` (lines 130-136):
locate the first `{` and the last `}` and, when both exist with the closing
brace strictly later, slice to `text[start_idx : end_idx + 1]`. -/
def braceSlice (text : List Char) : List Char :=
  match findL '{' text, rfindL '}' text with
  | some startIdx, some endIdx =>
    if startIdx < endIdx then pySlice text startIdx (endIdx + 1) else text
  | _, _ => text

/-- The text of `clean_json_response` just before the brace search
(lines 117-128): strip, strip fence markers, strip again. -/
def preClean (text : List Char) : List Char := pyStrip (stripFenceMarkers (pyStrip text))

/-- Transcription of `clean_json_response`
(`src/day_2/gigachat_json_api.py` lines 106-138). -/
def clean_json_response (text : List Char) : List Char := braceSlice (preClean text)

/-- Copy of `validate_json_response` living in `src/day_2/chatbot_gui.py`
(lines 50-70); the Python body is textually identical to the one in
`gigachat_json_api.py`. -/
def gui_validate_json_response (response_data : PyDict) : Bool :=
  if ! required_fields.all (fun field => keyIn response_data field) then false
  else
    match lookupKey response_data "answer",
          lookupKey response_data "key_points",
          lookupKey response_data "sentiment" with
    | some answerV, some keyPointsV, some sentimentV =>
      if ! isStrVal answerV then false
      else
        match keyPointsV with
        | .arr points =>
          if ! points.all isStrVal then false
          else if ! valid_sentiments.any (fun s => pyEqStr sentimentV s) then false
          else true
        | _ => false
    | _, _, _ => false

/-- Dynamic behaviour of the chatbot_gui copy of the validator on arbitrary
decoded values (same Python semantics as `validateFull`). -/
def gui_validateFull : JsonValue → Except TypeErrKind Bool
  | .obj d => .ok (gui_validate_json_response d)
  | .str s =>
    if required_fields.all (fun f => containsSeq f.toList s.toList) then
      .error .indicesMustBeIntegers
    else .ok false
  | .arr xs =>
    if required_fields.all (fun f => xs.any (fun x => pyEqStr x f)) then
      .error .indicesMustBeIntegers
    else .ok false
  | _ => .error .argNotIterable

/-- Copy of `clean_json_response` living in `src/day_2/chatbot_gui.py`
(lines 73-93); the Python body is textually identical to the one in
`gigachat_json_api.py`. -/
def gui_clean_json_response (text : List Char) : List Char := braceSlice (preClean text)

/-- Result of one provider call (`client.chat(chat)` plus reading the message
content): the reply text, or a transport-level exception (connectivity,
authentication), which is neither a JSONDecodeError nor a ValueError and so is
caught by no handler in either `send_json_request`. -/
inductive ProviderResp where
  | text (t : List Char)
  | transport (e : Nat)

/-- Execution context of a `send_json_request` run: the scripted completion
provider (call number, starting at 0, to result of that call) and the
`json.loads` decoder (standard-library collaborator), which returns the decoded
value or the message of a JSONDecodeError. -/
structure Ctx where
  provider : Nat → ProviderResp
  loads : List Char → Except (List Char) JsonValue

/-- How a `send_json_request` call ends: a validated value is returned, a
ValueError with the given message is raised, a TypeError escapes from the
validator, or a transport exception from the provider propagates. -/
inductive Outcome where
  | ok (v : JsonValue)
  | err (msg : List Char)
  | pyTypeError (k : TypeErrKind)
  | transport (e : Nat)

/-- Message of the ValueError raised on the last JSONDecodeError in
`gigachat_json_api.py` (lines 208-212): it interpolates `max_retries`, the raw
response truncated to 200 characters, and the decode-error text. -/
def parseMsgA : List Char := "Не удалось распарсить JSON после ".toList

def parseMsgB : List Char := " попыток. Ответ от API: ".toList

def parseMsgC : List Char := "... Ошибка парсинга: ".toList

def parseExhaustedMsg (maxRetries : Nat) (raw200 emsg : List Char) : List Char :=
  parseMsgA ++ (toString maxRetries).toList ++ parseMsgB ++ raw200 ++ parseMsgC ++ emsg

/-- Message of the ValueError raised when validation returns False
(`gigachat_json_api.py` line 194 and `chatbot_gui.py` line 137). -/
def structureMsg : List Char := "Структура JSON не соответствует требованиям".toList

/-- Message of the ValueError raised on the last validation failure in
`gigachat_json_api.py` (lines 225-228): it interpolates `max_retries` and the
caught ValueError's text, but not the raw response. -/
def validMsgA : List Char := "Не удалось получить валидный JSON после ".toList

def validMsgB : List Char := " попыток. Ошибка валидации: ".toList

def validateExhaustedMsg (maxRetries : Nat) : List Char :=
  validMsgA ++ (toString maxRetries).toList ++ validMsgB ++ structureMsg

/-- Message of the unreachable-in-normal-operation ValueError after the loop in
`gigachat_json_api.py` (line 231). -/
def noValidAnswerMsg : List Char := "Не удалось получить валидный ответ".toList

/-- Message of the ValueError raised on the last JSONDecodeError in
`chatbot_gui.py` (lines 149-153); an empty (falsy) response text is rendered as
the placeholder instead of the 200-character truncation. -/
def parseExhaustedGuiMsg (maxRetries : Nat) (raw emsg : List Char) : List Char :=
  parseMsgA ++ (toString maxRetries).toList ++ parseMsgB ++
    (if raw.isEmpty then "Нет ответа".toList else raw.take 200) ++
    parseMsgC ++ emsg

/-- Message of the ValueError raised after the loop in `chatbot_gui.py`
(line 166), reached when the loop body never ran. -/
def exhaustedAllMsg : List Char := "Не удалось получить валидный ответ после всех попыток".toList

/-- Retry loop of `send_json_request` in `src/day_2/gigachat_json_api.py`
(lines 182-231).  The loop `for attempt in range(max_retries)` is encoded by
the number of iterations still available, `remaining = max_retries - attempt`:
the body runs exactly when `remaining ≥ 1`, and the handlers' retry condition
`attempt < max_retries - 1` holds exactly when `remaining ≥ 2`.
`response_text` is the text under examination, fetched before the loop
(line 178) or by the previous handler (lines 205-206 / 222-223); `calls` is the
number of provider calls made so far, which is also the 0-based index of the
next call.  Within an iteration: clean, decode, validate; a valid value
returns; a validation `False` raises the structure ValueError, caught by the
`except ValueError` arm; a decode error is caught by the
`except json.JSONDecodeError` arm; both arms re-call the provider when retries
remain and otherwise raise the final diagnostic; a TypeError from the validator
and a transport exception from the re-call match no handler and propagate.
When `remaining` reaches 0 without entering the body (only possible for
`max_retries ≤ 0`), the ValueError after the loop (line 231) is raised.
Returns the outcome paired with the total provider-call count. -/
def loopApi (ctx : Ctx) (maxRetries : Nat) : Nat → List Char → Nat → Outcome × Nat
  | 0, _, calls => (.err noValidAnswerMsg, calls)
  | remaining + 1, response_text, calls =>
    match ctx.loads (clean_json_response response_text) with
    | .ok json_data =>
      match validateFull json_data with
      | .ok true => (.ok json_data, calls)
      | .ok false =>
        match remaining with
        | 0 => (.err (validateExhaustedMsg maxRetries), calls)
        | _ + 1 =>
          match ctx.provider calls with
          | .transport e => (.transport e, calls + 1)
          | .text t2 => loopApi ctx maxRetries remaining t2 (calls + 1)
      | .error k => (.pyTypeError k, calls)
    | .error emsg =>
      match remaining with
      | 0 => (.err (parseExhaustedMsg maxRetries (response_text.take 200) emsg), calls)
      | _ + 1 =>
        match ctx.provider calls with
        | .transport e => (.transport e, calls + 1)
        | .text t2 => loopApi ctx maxRetries remaining t2 (calls + 1)

/-- `send_json_request` from `src/day_2/gigachat_json_api.py` (lines 141-241):
one provider call before the loop (lines 178-179), then the retry loop over
`max_retries` iterations; a transport exception at any point propagates
unchanged (the outer `except Exception` clause just re-raises). -/
def send_json_request (ctx : Ctx) (maxRetries : Nat) : Outcome × Nat :=
  match ctx.provider 0 with
  | .transport e => (.transport e, 1)
  | .text t0 => loopApi ctx maxRetries maxRetries t0 1

/-- Retry loop of `send_json_request` in `src/day_2/chatbot_gui.py`
(lines 121-166), encoded like `loopApi` with `remaining = max_retries - attempt`.
Here every provider call sits at the top of the loop body, so attempt number
`attempt` makes the call with 0-based index `calls = attempt`.  The
`except ValueError` arm retries only when the message contains
"Структура JSON" (always true for the one ValueError that can reach it) and
`attempt < max_retries - 1`, and otherwise re-raises that same ValueError.
When `remaining` reaches 0 without entering the body (only possible for
`max_retries ≤ 0`), the ValueError after the loop (line 166) is raised. -/
def loopGui (ctx : Ctx) (maxRetries : Nat) : Nat → Nat → Outcome × Nat
  | 0, calls => (.err exhaustedAllMsg, calls)
  | remaining + 1, calls =>
    match ctx.provider calls with
    | .transport e => (.transport e, calls + 1)
    | .text response_text =>
      match ctx.loads (gui_clean_json_response response_text) with
      | .ok json_data =>
        match gui_validateFull json_data with
        | .ok true => (.ok json_data, calls + 1)
        | .ok false =>
          match remaining with
          | 0 => (.err structureMsg, calls + 1)
          | _ + 1 => loopGui ctx maxRetries remaining (calls + 1)
        | .error k => (.pyTypeError k, calls + 1)
      | .error emsg =>
        match remaining with
        | 0 => (.err (parseExhaustedGuiMsg maxRetries response_text emsg), calls + 1)
        | _ + 1 => loopGui ctx maxRetries remaining (calls + 1)

/-- `send_json_request` from `src/day_2/chatbot_gui.py` (lines 96-166): the
whole body is the retry loop over `max_retries` iterations (the client is
assumed initialised, line 108). -/
def gui_send_json_request (ctx : Ctx) (maxRetries : Nat) : Outcome × Nat :=
  loopGui ctx maxRetries maxRetries 0

/-- Response text on which one attempt fails in the retryable way: the cleaned
text fails to decode (a JSONDecodeError), or it decodes to a value on which the
validator returns `False` (the coordinator's own structure ValueError). -/
def retryableInvalid (loads : List Char → Except (List Char) JsonValue)
    (t : List Char) : Prop :=
  (∃ emsg, loads (clean_json_response t) = .error emsg) ∨
  (∃ v, loads (clean_json_response t) = .ok v ∧ validateFull v = .ok false)

/-- The diagnostic message `send_json_request` (gigachat_json_api.py) raises
when the budget is exhausted while examining text `t`: the parse diagnostic
when `t`'s cleaned form does not decode, the validation diagnostic otherwise. -/
def exhaustMsgFor (loads : List Char → Except (List Char) JsonValue)
    (maxRetries : Nat) (t : List Char) : List Char :=
  match loads (clean_json_response t) with
  | .error emsg => parseExhaustedMsg maxRetries (t.take 200) emsg
  | .ok _ => validateExhaustedMsg maxRetries

/-! ### Facts about the string helpers -/

theorem dropWhile_wsp_idem (l : List Char) :
    (l.dropWhile wsp).dropWhile wsp = l.dropWhile wsp := by
  induction l with
  | nil => rfl
  | cons a as ih =>
    by_cases h : wsp a
    · simp only [List.dropWhile_cons_of_pos h]
      exact ih
    · simp only [List.dropWhile_cons_of_neg h]

theorem stripLeftPy_idem (l : List Char) : stripLeftPy (stripLeftPy l) = stripLeftPy l :=
  dropWhile_wsp_idem l

theorem stripRightPy_idem (l : List Char) :
    stripRightPy (stripRightPy l) = stripRightPy l := by
  unfold stripRightPy
  rw [List.reverse_reverse, dropWhile_wsp_idem]

theorem dropWhile_wsp_append_keep (xs : List Char) (a : Char) (ha : wsp a = false) :
    (xs ++ [a]).dropWhile wsp = xs.dropWhile wsp ++ [a] := by
  induction xs with
  | nil =>
    simp only [List.nil_append, List.dropWhile_nil]
    rw [List.dropWhile_cons_of_neg (by simp [ha])]
  | cons x xt ih =>
    by_cases h : wsp x
    · simp only [List.cons_append, List.dropWhile_cons_of_pos h]
      exact ih
    · simp only [List.cons_append, List.dropWhile_cons_of_neg h]

theorem stripRightPy_cons (a : Char) (as : List Char) (ha : wsp a = false) :
    stripRightPy (a :: as) = a :: stripRightPy as := by
  unfold stripRightPy
  rw [List.reverse_cons, dropWhile_wsp_append_keep _ _ ha, List.reverse_append]
  rfl

theorem stripLeftPy_fix_head (a : Char) (as : List Char)
    (hl : stripLeftPy (a :: as) = a :: as) : wsp a = false := by
  by_contra hc
  rw [Bool.not_eq_false] at hc
  rw [stripLeftPy, List.dropWhile_cons_of_pos hc] at hl
  have hle := (List.dropWhile_sublist (l := as) wsp).length_le
  have := congrArg List.length hl
  simp only [List.length_cons] at this
  omega

theorem stripLeft_stripRight (l : List Char) (hl : stripLeftPy l = l) :
    stripLeftPy (stripRightPy l) = stripRightPy l := by
  cases l with
  | nil => rfl
  | cons a as =>
    have ha : wsp a = false := stripLeftPy_fix_head a as hl
    rw [stripRightPy_cons a as ha]
    rw [stripLeftPy, List.dropWhile_cons_of_neg (by simp [ha])]

theorem pyStrip_idem (l : List Char) : pyStrip (pyStrip l) = pyStrip l := by
  unfold pyStrip
  rw [stripLeft_stripRight (stripLeftPy l) (stripLeftPy_idem l), stripRightPy_idem]

theorem stripLeftPy_nop (l : List Char) (h : ∀ a, l.head? = some a → wsp a = false) :
    stripLeftPy l = l := by
  cases l with
  | nil => rfl
  | cons a as =>
    rw [stripLeftPy, List.dropWhile_cons_of_neg (by simp [h a rfl])]

theorem stripRightPy_nop (l : List Char) (h : ∀ a, l.getLast? = some a → wsp a = false) :
    stripRightPy l = l := by
  unfold stripRightPy
  have hrev : l.reverse.dropWhile wsp = l.reverse := by
    cases hr : l.reverse with
    | nil => rfl
    | cons a as =>
      have ha : l.getLast? = some a := by
        rw [← List.head?_reverse, hr]
        rfl
      rw [List.dropWhile_cons_of_neg (by simp [h a ha])]
  rw [hrev, List.reverse_reverse]

theorem pyStrip_nop (l : List Char) (hh : ∀ a, l.head? = some a → wsp a = false)
    (hl : ∀ a, l.getLast? = some a → wsp a = false) : pyStrip l = l := by
  unfold pyStrip
  rw [stripLeftPy_nop l hh, stripRightPy_nop l hl]

theorem startsWithL_of_append (p q t : List Char)
    (h : startsWithL (p ++ q) t = true) : startsWithL p t = true := by
  induction p generalizing t with
  | nil => rfl
  | cons a as ih =>
    cases t with
    | nil => simp [startsWithL] at h
    | cons b bs =>
      rw [List.cons_append, startsWithL, Bool.and_eq_true] at h
      rw [startsWithL, Bool.and_eq_true]
      exact ⟨h.1, ih bs h.2⟩

theorem fenceJsonL_eq : fenceJsonL = fenceL ++ "json".toList := by decide

theorem startsWithL_cons_ne (p : Char) (ps : List Char) (a : Char) (l : List Char)
    (h : ¬ p = a) : startsWithL (p :: ps) (a :: l) = false := by
  simp [startsWithL, h]

theorem stripFenceMarkers_nop (t : List Char)
    (h3 : startsWithL fenceL t = false) (he : endsWithL fenceL t = false) :
    stripFenceMarkers t = t := by
  have h7 : startsWithL fenceJsonL t = false := by
    by_contra hc
    rw [Bool.not_eq_false] at hc
    rw [fenceJsonL_eq] at hc
    rw [startsWithL_of_append _ _ _ hc] at h3
    cases h3
  unfold stripFenceMarkers
  simp [h7, h3, he]

theorem findL_some_lt (c : Char) (l : List Char) (i : Nat) (h : findL c l = some i) :
    i < l.length := by
  induction l generalizing i with
  | nil => simp [findL] at h
  | cons a as ih =>
    rw [findL] at h
    by_cases ha : a = c
    · rw [if_pos ha, Option.some_inj] at h
      simp [← h]
    · rw [if_neg ha, Option.map_eq_some'] at h
      obtain ⟨j, hj, rfl⟩ := h
      have := ih j hj
      simp only [List.length_cons]
      omega

theorem findL_some_get (c : Char) (l : List Char) (i : Nat) (h : findL c l = some i) :
    l[i]? = some c := by
  induction l generalizing i with
  | nil => simp [findL] at h
  | cons a as ih =>
    rw [findL] at h
    by_cases ha : a = c
    · rw [if_pos ha, Option.some_inj] at h
      subst h
      simp [ha]
    · rw [if_neg ha, Option.map_eq_some'] at h
      obtain ⟨j, hj, rfl⟩ := h
      simpa using ih j hj

theorem rfindL_some_lt (c : Char) (l : List Char) (j : Nat) (h : rfindL c l = some j) :
    j < l.length := by
  rw [rfindL, Option.map_eq_some'] at h
  obtain ⟨k, hk, rfl⟩ := h
  have := findL_some_lt c l.reverse k hk
  rw [List.length_reverse] at this
  omega

theorem rfindL_some_get (c : Char) (l : List Char) (j : Nat) (h : rfindL c l = some j) :
    l[j]? = some c := by
  rw [rfindL, Option.map_eq_some'] at h
  obtain ⟨k, hk, rfl⟩ := h
  have hlt := findL_some_lt c l.reverse k hk
  rw [List.length_reverse] at hlt
  have hget := findL_some_get c l.reverse k hk
  rw [List.getElem?_reverse hlt] at hget
  exact hget

theorem findL_head (c : Char) (l : List Char) (h : l.head? = some c) :
    findL c l = some 0 := by
  cases l with
  | nil => simp at h
  | cons a as =>
    rw [List.head?_cons, Option.some_inj] at h
    rw [findL, if_pos h]

theorem rfindL_last (c : Char) (l : List Char) (h : l.getLast? = some c) :
    rfindL c l = some (l.length - 1) := by
  rw [rfindL, findL_head c l.reverse (by rw [List.head?_reverse]; exact h)]
  rfl

theorem braceSlice_eq_of (t : List Char) (i j : Nat) (hf : findL '{' t = some i)
    (hr : rfindL '}' t = some j) :
    braceSlice t = if i < j then pySlice t i (j + 1) else t := by
  unfold braceSlice
  rw [hf, hr]

theorem braceSlice_head_last (t : List Char) :
    braceSlice t = t ∨
      ((braceSlice t).head? = some '{' ∧ (braceSlice t).getLast? = some '}') := by
  cases hf : findL '{' t with
  | none => left; unfold braceSlice; rw [hf]
  | some i =>
    cases hr : rfindL '}' t with
    | none => left; unfold braceSlice; rw [hf, hr]
    | some j =>
      rw [braceSlice_eq_of t i j hf hr]
      by_cases hij : i < j
      · right
        rw [if_pos hij]
        have hjlen : j < t.length := rfindL_some_lt _ _ _ hr
        have hti : t[i]? = some '{' := findL_some_get _ _ _ hf
        have htj : t[j]? = some '}' := rfindL_some_get _ _ _ hr
        constructor
        · rw [pySlice, List.head?_take, if_neg (by omega), List.head?_drop]
          exact hti
        · have hlen : ((t.drop i).take (j + 1 - i)).length = j + 1 - i := by
            rw [List.length_take, List.length_drop]
            omega
          rw [pySlice, List.getLast?_eq_getElem?, hlen]
          rw [List.getElem?_take, if_pos (by omega), List.getElem?_drop]
          have hidx : i + (j + 1 - i - 1) = j := by omega
          rw [hidx]
          exact htj
      · left
        rw [if_neg hij]

theorem braceSlice_of_head_last (t : List Char) (hh : t.head? = some '{')
    (hl : t.getLast? = some '}') : braceSlice t = t := by
  have hlen2 : 2 ≤ t.length := by
    cases t with
    | nil => simp at hh
    | cons a as =>
      cases as with
      | nil =>
        rw [List.head?_cons, Option.some_inj] at hh
        rw [List.getLast?_singleton, Option.some_inj] at hl
        rw [hh] at hl
        cases hl
      | cons b bs => simp only [List.length_cons]; omega
  rw [braceSlice_eq_of t 0 (t.length - 1) (findL_head _ _ hh) (rfindL_last _ _ hl),
    if_pos (by omega : 0 < t.length - 1)]
  rw [pySlice, List.drop_zero]
  have : t.length - 1 + 1 - 0 = t.length := by omega
  rw [this, List.take_length]

theorem wsp_brace_open : wsp '{' = false := by decide

theorem wsp_brace_close : wsp '}' = false := by decide

theorem head_ne_fence_start (t : List Char) (hh : t.head? = some '{') :
    startsWithL fenceL t = false := by
  cases t with
  | nil => simp at hh
  | cons a as =>
    rw [List.head?_cons, Option.some_inj] at hh
    subst hh
    apply startsWithL_cons_ne
    decide

theorem last_ne_fence_end (t : List Char) (hl : t.getLast? = some '}') :
    endsWithL fenceL t = false := by
  rw [endsWithL]
  cases hr : t.reverse with
  | nil => rfl
  | cons a as =>
    have : t.reverse.head? = some '}' := by rw [List.head?_reverse]; exact hl
    rw [hr, List.head?_cons, Option.some_inj] at this
    subst this
    apply startsWithL_cons_ne
    decide

theorem pyStrip_preClean (x : List Char) : pyStrip (preClean x) = preClean x := by
  rw [preClean]
  exact pyStrip_idem _

theorem clean_of_no_fence_core (x : List Char)
    (h3 : startsWithL fenceL (clean_json_response x) = false)
    (he : endsWithL fenceL (clean_json_response x) = false) :
    clean_json_response (clean_json_response x) = clean_json_response x := by
  rcases braceSlice_head_last (preClean x) with hcase | ⟨hh, hl⟩
  · have hyx : clean_json_response x = preClean x := hcase
    rw [hyx] at h3 he ⊢
    have e1 : pyStrip (preClean x) = preClean x := pyStrip_preClean x
    have e2 : stripFenceMarkers (preClean x) = preClean x := stripFenceMarkers_nop _ h3 he
    calc clean_json_response (preClean x)
        = braceSlice (pyStrip (stripFenceMarkers (pyStrip (preClean x)))) := rfl
      _ = braceSlice (preClean x) := by rw [e1, e2, e1]
      _ = preClean x := hcase
  · have hh2 : (clean_json_response x).head? = some '{' := hh
    have hl2 : (clean_json_response x).getLast? = some '}' := hl
    have hstrip : pyStrip (clean_json_response x) = clean_json_response x := by
      apply pyStrip_nop
      · intro a ha
        rw [hh2, Option.some_inj] at ha
        rw [← ha]
        decide
      · intro a ha
        rw [hl2, Option.some_inj] at ha
        rw [← ha]
        decide
    have hfence : stripFenceMarkers (clean_json_response x) = clean_json_response x :=
      stripFenceMarkers_nop _ (head_ne_fence_start _ hh2) (last_ne_fence_end _ hl2)
    have hbs : braceSlice (clean_json_response x) = clean_json_response x :=
      braceSlice_of_head_last _ hh2 hl2
    calc clean_json_response (clean_json_response x)
        = braceSlice (pyStrip (stripFenceMarkers (pyStrip (clean_json_response x)))) := rfl
      _ = clean_json_response x := by rw [hstrip, hfence, hstrip, hbs]

def c5Example : List Char :=
  "Sure! \x7b\"answer\":\"x\",\"key_points\":[\"a\"],\"sentiment\":\"positive\"\x7d Hope that helps!".toList

/-- C4: the claim that `clean_json_response` is idempotent on every input is
false: on "a``````" one application yields "a```" (the trailing fence is
stripped, exposing a new one), and a second application yields "a". -/
theorem cleaner_idem_cex :
    clean_json_response (clean_json_response "a``````".toList) ≠
      clean_json_response "a``````".toList ∧
    clean_json_response "a``````".toList = "a```".toList ∧
    clean_json_response (clean_json_response "a``````".toList) = "a".toList := by
  refine ⟨?_, by decide, by decide⟩
  decide

/-- C4 (amended): `clean_json_response` is idempotent on every input whose
cleaned result neither starts nor ends with the markdown fence marker ```` ``` ````;
a second pass can only act by stripping such a freshly exposed fence marker. -/
theorem cleaner_idem_amended (x : List Char)
    (h3 : startsWithL fenceL (clean_json_response x) = false)
    (he : endsWithL fenceL (clean_json_response x) = false) :
    clean_json_response (clean_json_response x) = clean_json_response x :=
  clean_of_no_fence_core x h3 he

theorem cleaner_idem_amended_witness :
    startsWithL fenceL (clean_json_response c5Example) = false ∧
    endsWithL fenceL (clean_json_response c5Example) = false ∧
    clean_json_response (clean_json_response c5Example) = clean_json_response c5Example :=
  ⟨by decide, by decide, cleaner_idem_amended c5Example (by decide) (by decide)⟩

/-- C5: whenever the fence-stripped, trimmed form of the input (`preClean`)
contains its first `{` strictly before its last `}`, `clean_json_response`
returns exactly the inclusive slice between those two positions. -/
theorem cleaner_brace_slice (x : List Char) (i j : Nat)
    (hf : findL '{' (preClean x) = some i) (hr : rfindL '}' (preClean x) = some j)
    (hij : i < j) :
    clean_json_response x = pySlice (preClean x) i (j + 1) := by
  rw [clean_json_response, braceSlice_eq_of _ i j hf hr, if_pos hij]

theorem cleaner_brace_slice_witness :
    findL '{' (preClean c5Example) = some 6 ∧
    rfindL '}' (preClean c5Example) = some 61 ∧
    clean_json_response c5Example = pySlice (preClean c5Example) 6 62 ∧
    clean_json_response c5Example =
      "\x7b\"answer\":\"x\",\"key_points\":[\"a\"],\"sentiment\":\"positive\"\x7d".toList :=
  ⟨by decide, by decide, cleaner_brace_slice c5Example 6 61 (by decide) (by decide) (by decide),
    by decide⟩

/-- Wire-shape conditions on a decoded dict, as the specification states them:
the three required keys are present, `answer` is a string, `key_points` is a
list whose every element is a string, and `sentiment` is one of "neutral",
"positive", "negative". -/
def specValidDict (d : PyDict) : Prop :=
  (∃ s, lookupKey d "answer" = some (.str s)) ∧
  (∃ xs, lookupKey d "key_points" = some (.arr xs) ∧ ∀ x ∈ xs, ∃ s, x = .str s) ∧
  (∃ s, lookupKey d "sentiment" = some (.str s) ∧
    (s = "neutral" ∨ s = "positive" ∨ s = "negative"))

theorem isStrVal_iff (x : JsonValue) : isStrVal x = true ↔ ∃ s, x = .str s := by
  cases x <;> simp [isStrVal]

theorem validate_true_iff (d : PyDict) :
    validate_json_response d = true ↔ specValidDict d := by
  unfold validate_json_response specValidDict
  cases ha : lookupKey d "answer" with
  | none => simp [required_fields, keyIn, ha]
  | some av =>
    cases hk : lookupKey d "key_points" with
    | none => simp [required_fields, keyIn, ha, hk]
    | some kv =>
      cases hs : lookupKey d "sentiment" with
      | none => simp [required_fields, keyIn, ha, hk, hs]
      | some sv =>
        cases av <;> cases kv <;> cases sv <;>
          simp [required_fields, keyIn, ha, hk, hs, pyEqStr,
            valid_sentiments, List.all_eq_true, isStrVal_iff]

/-- C3: on every decoded mapping the validator is total (the Python function
returns a bool and raises nothing, `validateFull (.obj d) = .ok _`), and it
returns `true` exactly when the three required keys are present with `answer` a
string, `key_points` a list of strings (possibly empty), and `sentiment` one of
"neutral", "positive", "negative". -/
theorem validator_total_iff (d : PyDict) :
    validateFull (.obj d) = .ok (validate_json_response d) ∧
      (validate_json_response d = true ↔ specValidDict d) :=
  ⟨rfl, validate_true_iff d⟩

def dEmptyKp : PyDict :=
  [("answer", .str "x"), ("key_points", .arr []), ("sentiment", .str "neutral")]

theorem validator_total_iff_witness :
    validateFull (.obj dEmptyKp) = .ok (validate_json_response dEmptyKp) ∧
      validate_json_response dEmptyKp = true :=
  ⟨(validator_total_iff dEmptyKp).1, by decide⟩

def dExtra : PyDict :=
  [("answer", .str "x"), ("key_points", .arr []), ("sentiment", .str "neutral"),
    ("extra", .num 1)]

/-- C8: the claim that the key set must be exactly the three required keys is
false: `dExtra` carries the additional key "extra" yet validates to `true` —
the Python validator only checks that the required keys are present. -/
theorem extra_keys_cex :
    validate_json_response dExtra = true ∧
    lookupKey dExtra "extra" = some (.num 1) ∧
    "extra" ∉ required_fields :=
  ⟨by decide, rfl, by decide⟩

theorem lookupKey_cons_ne (k : String) (v : JsonValue) (d : PyDict) (key : String)
    (h : ¬ k = key) : lookupKey ((k, v) :: d) key = lookupKey d key := by
  simp [lookupKey, h]

/-- C8 (amended): extra keys never affect the verdict: prepending a binding
whose key is not one of the required fields leaves `validate_json_response`
unchanged, so a mapping with the three correctly-typed required fields is
accepted regardless of additional keys. -/
theorem extra_keys_ignored (d : PyDict) (p : String × JsonValue)
    (hp : p.1 ∉ required_fields) :
    validate_json_response (p :: d) = validate_json_response d := by
  obtain ⟨k, v⟩ := p
  simp only [required_fields, List.mem_cons, List.mem_singleton, not_or] at hp
  obtain ⟨h1, h2, h3, -⟩ := hp
  have e1 := lookupKey_cons_ne k v d "answer" h1
  have e2 := lookupKey_cons_ne k v d "key_points" h2
  have e3 := lookupKey_cons_ne k v d "sentiment" h3
  unfold validate_json_response
  rw [e1, e2, e3]
  simp [required_fields, keyIn, e1, e2, e3]

theorem extra_keys_ignored_witness :
    validate_json_response (("extra", JsonValue.num 1) :: dEmptyKp) =
      validate_json_response dEmptyKp ∧
    validate_json_response dEmptyKp = true :=
  ⟨extra_keys_ignored dEmptyKp ("extra", JsonValue.num 1) (by decide), by decide⟩

/-- C10: the helper copies in `chatbot_gui.py` agree extensionally with the
ones in `gigachat_json_api.py` on every input (the Python bodies are textually
identical, and so are their transcriptions). -/
theorem helper_copies_equal :
    (∀ d : PyDict, gui_validate_json_response d = validate_json_response d) ∧
    (∀ t : List Char, gui_clean_json_response t = clean_json_response t) :=
  ⟨fun _ => rfl, fun _ => rfl⟩

theorem gui_clean_eq (t : List Char) : gui_clean_json_response t = clean_json_response t := rfl

theorem gui_validateFull_eq (v : JsonValue) : gui_validateFull v = validateFull v := by
  cases v <;> rfl

theorem loopApi_exhaust (k : Nat) (ctx : Ctx) (mr : Nat) :
    ∀ (t : List Char) (calls : Nat), 1 ≤ k →
    retryableInvalid ctx.loads t →
    (∀ j, j + 1 < k →
      ∃ t2, ctx.provider (calls + j) = .text t2 ∧ retryableInvalid ctx.loads t2) →
    ∃ tL, retryableInvalid ctx.loads tL ∧
      ((k = 1 ∧ tL = t) ∨ (2 ≤ k ∧ ctx.provider (calls + (k - 2)) = .text tL)) ∧
      loopApi ctx mr k t calls = (.err (exhaustMsgFor ctx.loads mr tL), calls + (k - 1)) := by
  induction k with
  | zero => intro t calls h1; omega
  | succ k ih =>
    intro t calls _ hinv hpre
    cases k with
    | zero =>
      refine ⟨t, hinv, Or.inl ⟨rfl, rfl⟩, ?_⟩
      rcases hinv with ⟨emsg, hdec⟩ | ⟨v, hok, hval⟩
      · simp [loopApi, hdec, exhaustMsgFor]
      · simp [loopApi, hok, hval, exhaustMsgFor]
    | succ k2 =>
      obtain ⟨t2, hp2, hinv2⟩ := hpre 0 (by omega)
      rw [Nat.add_zero] at hp2
      have hstep : loopApi ctx mr (k2 + 1 + 1) t calls = loopApi ctx mr (k2 + 1) t2 (calls + 1) := by
        rcases hinv with ⟨emsg, hdec⟩ | ⟨v, hok, hval⟩
        · simp only [loopApi, hdec, hp2]
        · simp only [loopApi, hok, hval, hp2]
      have hshift : ∀ j, j + 1 < k2 + 1 →
          ∃ t3, ctx.provider (calls + 1 + j) = .text t3 ∧ retryableInvalid ctx.loads t3 := by
        intro j hj
        obtain ⟨t3, hp3, hi3⟩ := hpre (j + 1) (by omega)
        rw [show calls + (j + 1) = calls + 1 + j by omega] at hp3
        exact ⟨t3, hp3, hi3⟩
      obtain ⟨tL, hL1, hL2, hL3⟩ := ih t2 (calls + 1) (by omega) hinv2 hshift
      refine ⟨tL, hL1, Or.inr ⟨by omega, ?_⟩, ?_⟩
      · rcases hL2 with ⟨hk1, rfl⟩ | ⟨hk2, hpL⟩
        · have hz : k2 = 0 := by omega
          subst hz
          simpa using hp2
        · rw [show calls + (k2 + 1 + 1 - 2) = calls + 1 + (k2 + 1 - 2) by omega]
          exact hpL
      · rw [hstep, hL3]
        have : calls + 1 + (k2 + 1 - 1) = calls + (k2 + 1 + 1 - 1) := by omega
        rw [this]

theorem loopApi_now (ctx : Ctx) (mr k : Nat) (t : List Char) (calls : Nat) (v : JsonValue)
    (hk : 1 ≤ k) (hok : ctx.loads (clean_json_response t) = .ok v)
    (hval : validateFull v = .ok true) :
    loopApi ctx mr k t calls = (.ok v, calls) := by
  cases k with
  | zero => omega
  | succ k2 => simp [loopApi, hok, hval]

theorem loopApi_chain (d : Nat) (ctx : Ctx) (mr : Nat) :
    ∀ (k : Nat) (t : List Char) (calls : Nat) (tk : List Char) (v : JsonValue),
    1 ≤ d → d < k →
    retryableInvalid ctx.loads t →
    (∀ j, j + 1 < d →
      ∃ t2, ctx.provider (calls + j) = .text t2 ∧ retryableInvalid ctx.loads t2) →
    ctx.provider (calls + (d - 1)) = .text tk →
    ctx.loads (clean_json_response tk) = .ok v →
    validateFull v = .ok true →
    loopApi ctx mr k t calls = (.ok v, calls + d) := by
  induction d with
  | zero => intro k t calls tk v h1; omega
  | succ d ih =>
    intro k t calls tk v _ hdk hinv hpre hplast hok hval
    obtain ⟨k2, rfl⟩ : ∃ k2, k = k2 + 1 + 1 := ⟨k - 2, by omega⟩
    cases d with
    | zero =>
      rw [Nat.add_zero] at hplast
      have hstep : loopApi ctx mr (k2 + 1 + 1) t calls = loopApi ctx mr (k2 + 1) tk (calls + 1) := by
        rcases hinv with ⟨emsg, hdec⟩ | ⟨v2, hok2, hval2⟩
        · simp only [loopApi, hdec, hplast]
        · simp only [loopApi, hok2, hval2, hplast]
      rw [hstep, loopApi_now ctx mr (k2 + 1) tk (calls + 1) v (by omega) hok hval]
    | succ d2 =>
      obtain ⟨t2, hp2, hinv2⟩ := hpre 0 (by omega)
      rw [Nat.add_zero] at hp2
      have hstep : loopApi ctx mr (k2 + 1 + 1) t calls = loopApi ctx mr (k2 + 1) t2 (calls + 1) := by
        rcases hinv with ⟨emsg, hdec⟩ | ⟨v2, hok2, hval2⟩
        · simp only [loopApi, hdec, hp2]
        · simp only [loopApi, hok2, hval2, hp2]
      have hshift : ∀ j, j + 1 < d2 + 1 →
          ∃ t3, ctx.provider (calls + 1 + j) = .text t3 ∧ retryableInvalid ctx.loads t3 := by
        intro j hj
        obtain ⟨t3, hp3, hi3⟩ := hpre (j + 1) (by omega)
        rw [show calls + (j + 1) = calls + 1 + j by omega] at hp3
        exact ⟨t3, hp3, hi3⟩
      rw [show calls + (d2 + 1 + 1 - 1) = calls + 1 + (d2 + 1 - 1) by omega] at hplast
      have := ih (k2 + 1) t2 (calls + 1) tk v (by omega) (by omega) hinv2 hshift hplast hok hval
      rw [hstep, this]
      have heq : calls + 1 + (d2 + 1) = calls + (d2 + 1 + 1) := by omega
      rw [heq]

theorem loopApi_transport (d : Nat) (ctx : Ctx) (mr : Nat) :
    ∀ (k : Nat) (t : List Char) (calls : Nat) (e : Nat),
    1 ≤ d → d < k →
    retryableInvalid ctx.loads t →
    (∀ j, j + 1 < d →
      ∃ t2, ctx.provider (calls + j) = .text t2 ∧ retryableInvalid ctx.loads t2) →
    ctx.provider (calls + (d - 1)) = .transport e →
    loopApi ctx mr k t calls = (.transport e, calls + d) := by
  induction d with
  | zero => intro k t calls e h1; omega
  | succ d ih =>
    intro k t calls e _ hdk hinv hpre hplast
    obtain ⟨k2, rfl⟩ : ∃ k2, k = k2 + 1 + 1 := ⟨k - 2, by omega⟩
    cases d with
    | zero =>
      rw [Nat.add_zero] at hplast
      rcases hinv with ⟨emsg, hdec⟩ | ⟨v2, hok2, hval2⟩
      · simp [loopApi, hdec, hplast]
      · simp [loopApi, hok2, hval2, hplast]
    | succ d2 =>
      obtain ⟨t2, hp2, hinv2⟩ := hpre 0 (by omega)
      rw [Nat.add_zero] at hp2
      have hstep : loopApi ctx mr (k2 + 1 + 1) t calls = loopApi ctx mr (k2 + 1) t2 (calls + 1) := by
        rcases hinv with ⟨emsg, hdec⟩ | ⟨v2, hok2, hval2⟩
        · simp only [loopApi, hdec, hp2]
        · simp only [loopApi, hok2, hval2, hp2]
      have hshift : ∀ j, j + 1 < d2 + 1 →
          ∃ t3, ctx.provider (calls + 1 + j) = .text t3 ∧ retryableInvalid ctx.loads t3 := by
        intro j hj
        obtain ⟨t3, hp3, hi3⟩ := hpre (j + 1) (by omega)
        rw [show calls + (j + 1) = calls + 1 + j by omega] at hp3
        exact ⟨t3, hp3, hi3⟩
      rw [show calls + (d2 + 1 + 1 - 1) = calls + 1 + (d2 + 1 - 1) by omega] at hplast
      have := ih (k2 + 1) t2 (calls + 1) e (by omega) (by omega) hinv2 hshift hplast
      rw [hstep, this]
      have heq : calls + 1 + (d2 + 1) = calls + (d2 + 1 + 1) := by omega
      rw [heq]

theorem loopGui_exhaust (k : Nat) (ctx : Ctx) (mr : Nat) :
    ∀ (calls : Nat), 1 ≤ k →
    (∀ j, j < k →
      ∃ t, ctx.provider (calls + j) = .text t ∧ retryableInvalid ctx.loads t) →
    ∃ msg, loopGui ctx mr k calls = (.err msg, calls + k) := by
  induction k with
  | zero => intro calls h1; omega
  | succ k ih =>
    intro calls _ hpre
    obtain ⟨t0, hp0, hinv0⟩ := hpre 0 (by omega)
    rw [Nat.add_zero] at hp0
    cases k with
    | zero =>
      rcases hinv0 with ⟨emsg, hdec⟩ | ⟨v, hok, hval⟩
      · exact ⟨parseExhaustedGuiMsg mr t0 emsg,
          by simp [loopGui, hp0, gui_clean_eq, hdec]⟩
      · exact ⟨structureMsg,
          by simp [loopGui, hp0, gui_clean_eq, gui_validateFull_eq, hok, hval]⟩
    | succ k2 =>
      have hstep : loopGui ctx mr (k2 + 1 + 1) calls = loopGui ctx mr (k2 + 1) (calls + 1) := by
        rcases hinv0 with ⟨emsg, hdec⟩ | ⟨v, hok, hval⟩
        · simp only [loopGui, hp0, gui_clean_eq, hdec]
        · simp only [loopGui, hp0, gui_clean_eq, gui_validateFull_eq, hok, hval]
      have hshift : ∀ j, j < k2 + 1 →
          ∃ t3, ctx.provider (calls + 1 + j) = .text t3 ∧ retryableInvalid ctx.loads t3 := by
        intro j hj
        obtain ⟨t3, hp3, hi3⟩ := hpre (j + 1) (by omega)
        rw [show calls + (j + 1) = calls + 1 + j by omega] at hp3
        exact ⟨t3, hp3, hi3⟩
      obtain ⟨msg, hmsg⟩ := ih (calls + 1) (by omega) hshift
      refine ⟨msg, ?_⟩
      rw [hstep, hmsg]
      have heq : calls + 1 + (k2 + 1) = calls + (k2 + 1 + 1) := by omega
      rw [heq]

theorem loopGui_chain (d : Nat) (ctx : Ctx) (mr : Nat) :
    ∀ (k : Nat) (calls : Nat) (tk : List Char) (v : JsonValue),
    d < k →
    (∀ j, j < d →
      ∃ t2, ctx.provider (calls + j) = .text t2 ∧ retryableInvalid ctx.loads t2) →
    ctx.provider (calls + d) = .text tk →
    ctx.loads (clean_json_response tk) = .ok v →
    validateFull v = .ok true →
    loopGui ctx mr k calls = (.ok v, calls + d + 1) := by
  induction d with
  | zero =>
    intro k calls tk v hdk hpre hplast hok hval
    obtain ⟨k2, rfl⟩ : ∃ k2, k = k2 + 1 := ⟨k - 1, by omega⟩
    rw [Nat.add_zero] at hplast
    simp [loopGui, hplast, gui_clean_eq, gui_validateFull_eq, hok, hval]
  | succ d ih =>
    intro k calls tk v hdk hpre hplast hok hval
    obtain ⟨k2, rfl⟩ : ∃ k2, k = k2 + 1 + 1 := ⟨k - 2, by omega⟩
    obtain ⟨t0, hp0, hinv0⟩ := hpre 0 (by omega)
    rw [Nat.add_zero] at hp0
    have hstep : loopGui ctx mr (k2 + 1 + 1) calls = loopGui ctx mr (k2 + 1) (calls + 1) := by
      rcases hinv0 with ⟨emsg, hdec⟩ | ⟨v2, hok2, hval2⟩
      · simp only [loopGui, hp0, gui_clean_eq, hdec]
      · simp only [loopGui, hp0, gui_clean_eq, gui_validateFull_eq, hok2, hval2]
    have hshift : ∀ j, j < d →
        ∃ t3, ctx.provider (calls + 1 + j) = .text t3 ∧ retryableInvalid ctx.loads t3 := by
      intro j hj
      obtain ⟨t3, hp3, hi3⟩ := hpre (j + 1) (by omega)
      rw [show calls + (j + 1) = calls + 1 + j by omega] at hp3
      exact ⟨t3, hp3, hi3⟩
    rw [show calls + (d + 1) = calls + 1 + d by omega] at hplast
    have := ih (k2 + 1) (calls + 1) tk v (by omega) hshift hplast hok hval
    rw [hstep, this]
    have heq : calls + 1 + d + 1 = calls + (d + 1) + 1 := by omega
    rw [heq]

theorem loopGui_transport (d : Nat) (ctx : Ctx) (mr : Nat) :
    ∀ (k : Nat) (calls : Nat) (e : Nat),
    d < k →
    (∀ j, j < d →
      ∃ t2, ctx.provider (calls + j) = .text t2 ∧ retryableInvalid ctx.loads t2) →
    ctx.provider (calls + d) = .transport e →
    loopGui ctx mr k calls = (.transport e, calls + d + 1) := by
  induction d with
  | zero =>
    intro k calls e hdk hpre hplast
    obtain ⟨k2, rfl⟩ : ∃ k2, k = k2 + 1 := ⟨k - 1, by omega⟩
    rw [Nat.add_zero] at hplast
    simp [loopGui, hplast]
  | succ d ih =>
    intro k calls e hdk hpre hplast
    obtain ⟨k2, rfl⟩ : ∃ k2, k = k2 + 1 + 1 := ⟨k - 2, by omega⟩
    obtain ⟨t0, hp0, hinv0⟩ := hpre 0 (by omega)
    rw [Nat.add_zero] at hp0
    have hstep : loopGui ctx mr (k2 + 1 + 1) calls = loopGui ctx mr (k2 + 1) (calls + 1) := by
      rcases hinv0 with ⟨emsg, hdec⟩ | ⟨v2, hok2, hval2⟩
      · simp only [loopGui, hp0, gui_clean_eq, hdec]
      · simp only [loopGui, hp0, gui_clean_eq, gui_validateFull_eq, hok2, hval2]
    have hshift : ∀ j, j < d →
        ∃ t3, ctx.provider (calls + 1 + j) = .text t3 ∧ retryableInvalid ctx.loads t3 := by
      intro j hj
      obtain ⟨t3, hp3, hi3⟩ := hpre (j + 1) (by omega)
      rw [show calls + (j + 1) = calls + 1 + j by omega] at hp3
      exact ⟨t3, hp3, hi3⟩
    rw [show calls + (d + 1) = calls + 1 + d by omega] at hplast
    have := ih (k2 + 1) (calls + 1) e (by omega) hshift hplast
    rw [hstep, this]
    have heq : calls + 1 + d + 1 = calls + (d + 1) + 1 := by omega
    rw [heq]

theorem startsWithL_refl_append (n b : List Char) : startsWithL n (n ++ b) = true := by
  induction n with
  | nil => rfl
  | cons a as ih => simp [startsWithL, ih]

theorem containsSeq_here (n b : List Char) : containsSeq n (n ++ b) = true := by
  cases n with
  | nil => cases b <;> simp [containsSeq, startsWithL, List.isEmpty]
  | cons a as =>
    have h := startsWithL_refl_append (a :: as) b
    rw [List.cons_append] at h
    simp [containsSeq, h]

theorem containsSeq_append_left (n a h : List Char) (hc : containsSeq n h = true) :
    containsSeq n (a ++ h) = true := by
  induction a with
  | nil => simpa using hc
  | cons x xs ih => simp [containsSeq, ih]

theorem containsSeq_mid (pre mid post : List Char) :
    containsSeq mid (pre ++ (mid ++ post)) = true :=
  containsSeq_append_left mid pre (mid ++ post) (containsSeq_here mid post)

theorem containsSeq_parseMsg_raw (mr : Nat) (raw emsg : List Char) :
    containsSeq raw (parseExhaustedMsg mr raw emsg) = true := by
  have h := containsSeq_mid (parseMsgA ++ (toString mr).toList ++ parseMsgB) raw
    (parseMsgC ++ emsg)
  unfold parseExhaustedMsg
  simpa [List.append_assoc] using h

theorem containsSeq_parseMsg_emsg (mr : Nat) (raw emsg : List Char) :
    containsSeq emsg (parseExhaustedMsg mr raw emsg) = true := by
  have h := containsSeq_mid (parseMsgA ++ (toString mr).toList ++ parseMsgB ++ raw ++ parseMsgC)
    emsg []
  unfold parseExhaustedMsg
  simpa [List.append_assoc] using h

theorem containsSeq_validMsg_reason (mr : Nat) :
    containsSeq structureMsg (validateExhaustedMsg mr) = true := by
  have h := containsSeq_mid (validMsgA ++ (toString mr).toList ++ validMsgB) structureMsg []
  unfold validateExhaustedMsg
  simpa [List.append_assoc] using h

/-- Wire shape of a valid response as the specification defines it: an object
satisfying the three field conditions; any non-object decoded value violates
the schema. -/
def matchesWireShape : JsonValue → Prop
  | .obj d => specValidDict d
  | _ => False

def ctxNum : Ctx :=
  { provider := fun _ => .text "5".toList,
    loads := fun s =>
      if s = "5".toList then .ok (.num 5)
      else .error "Expecting value: line 1 column 1 (char 0)".toList }

/-- C1: the claim is false as stated.  The scripted provider always returns
"5", which is schema-violating (it decodes to the number 5, not an object), yet
with `max_retries = 2` the function makes exactly one provider call and raises
a TypeError (from `field in response_data` inside the validator), not the
retry-budget ValueError after two calls. -/
theorem retry_budget_exact_cex :
    ctxNum.loads (clean_json_response "5".toList) = .ok (.num 5) ∧
    ¬ matchesWireShape (.num 5) ∧
    validateFull (.num 5) = .error .argNotIterable ∧
    send_json_request ctxNum 2 = (.pyTypeError .argNotIterable, 1) ∧
    gui_send_json_request ctxNum 2 = (.pyTypeError .argNotIterable, 1) ∧
    (∀ msg, Outcome.pyTypeError .argNotIterable ≠ .err msg) ∧
    (1 : Nat) ≠ 2 :=
  ⟨rfl, fun h => h, rfl, rfl, rfl, fun _ h => Outcome.noConfusion h, by omega⟩

/-- C1 (amended): for every `max_retries ≥ 1` and every scripted provider whose
calls all return texts that fail in the retryable way — the cleaned text does
not decode, or it decodes to a value on which the validator returns `False` —
both variants of `send_json_request` make exactly `max_retries` provider calls
and raise a ValueError (texts decoding to values on which the validator itself
raises TypeError instead abort at once with that TypeError, see the
counterexample). -/
theorem retry_budget_exact_amended (ctx : Ctx) (maxRetries : Nat)
    (h1 : 1 ≤ maxRetries)
    (hinv : ∀ i, i < maxRetries →
      ∃ t, ctx.provider i = .text t ∧ retryableInvalid ctx.loads t) :
    (∃ msg, send_json_request ctx maxRetries = (.err msg, maxRetries)) ∧
    (∃ msg, gui_send_json_request ctx maxRetries = (.err msg, maxRetries)) := by
  constructor
  · obtain ⟨t0, hp0, hinv0⟩ := hinv 0 (by omega)
    have hpre : ∀ j, j + 1 < maxRetries →
        ∃ t2, ctx.provider (1 + j) = .text t2 ∧ retryableInvalid ctx.loads t2 := by
      intro j hj
      obtain ⟨t2, hp2, hi2⟩ := hinv (j + 1) (by omega)
      rw [show j + 1 = 1 + j by omega] at hp2
      exact ⟨t2, hp2, hi2⟩
    obtain ⟨tL, _, _, hL3⟩ := loopApi_exhaust maxRetries ctx maxRetries t0 1 h1 hinv0 hpre
    rw [show 1 + (maxRetries - 1) = maxRetries by omega] at hL3
    refine ⟨exhaustMsgFor ctx.loads maxRetries tL, ?_⟩
    simp only [send_json_request, hp0]
    exact hL3
  · have hpre : ∀ j, j < maxRetries →
        ∃ t, ctx.provider (0 + j) = .text t ∧ retryableInvalid ctx.loads t := by
      intro j hj
      rw [Nat.zero_add]
      exact hinv j hj
    obtain ⟨msg, hmsg⟩ := loopGui_exhaust maxRetries ctx maxRetries 0 h1 hpre
    rw [Nat.zero_add] at hmsg
    exact ⟨msg, hmsg⟩

def ctxAllBad : Ctx :=
  { provider := fun _ => .text "prose".toList,
    loads := fun _ => .error "Expecting value: line 1 column 1 (char 0)".toList }

theorem retry_budget_exact_amended_witness :
    (∃ msg, send_json_request ctxAllBad 2 = (.err msg, 2)) ∧
    (∃ msg, gui_send_json_request ctxAllBad 2 = (.err msg, 2)) :=
  retry_budget_exact_amended ctxAllBad 2 (by omega)
    (fun _ _ => ⟨"prose".toList, rfl,
      Or.inl ⟨"Expecting value: line 1 column 1 (char 0)".toList, rfl⟩⟩)

def goodText : List Char :=
  "\x7b\"answer\":\"x\",\"key_points\":[\"a\",\"b\",\"c\"],\"sentiment\":\"neutral\"\x7d".toList

def goodObj : JsonValue :=
  .obj [("answer", .str "x"),
    ("key_points", .arr [.str "a", .str "b", .str "c"]),
    ("sentiment", .str "neutral")]

def ctxNumGood : Ctx :=
  { provider := fun i => if i = 0 then .text "5".toList else .text goodText,
    loads := fun s =>
      if s = "5".toList then .ok (.num 5)
      else if s = goodText then .ok goodObj
      else .error "Expecting value: line 1 column 1 (char 0)".toList }

/-- C2: the claim is false as stated.  Call 1 returns the invalid
(schema-violating) text "5" and call 2 would return a text that cleans, decodes
and validates, so the claim predicts a success with 2 calls; instead the
validator raises TypeError on the number 5 after a single call. -/
theorem success_short_circuit_cex :
    ctxNumGood.loads (clean_json_response "5".toList) = .ok (.num 5) ∧
    ¬ matchesWireShape (.num 5) ∧
    ctxNumGood.provider 1 = .text goodText ∧
    ctxNumGood.loads (clean_json_response goodText) = .ok goodObj ∧
    validateFull goodObj = .ok true ∧
    send_json_request ctxNumGood 2 = (.pyTypeError .argNotIterable, 1) ∧
    gui_send_json_request ctxNumGood 2 = (.pyTypeError .argNotIterable, 1) ∧
    (Outcome.pyTypeError .argNotIterable, (1 : Nat)) ≠ (Outcome.ok goodObj, 2) :=
  ⟨rfl, fun h => h, rfl, rfl, rfl, rfl, rfl,
    fun h => Outcome.noConfusion (congrArg Prod.fst h)⟩

/-- C2 (amended): if calls 1..k-1 return texts failing in the retryable way
(undecodable, or decoding to a value the validator returns `False` on) and call
k returns a text whose cleaned form decodes to a value the validator accepts,
then both variants of `send_json_request` make exactly k provider calls and
return that decoded value. -/
theorem success_short_circuit_amended (ctx : Ctx) (maxRetries k : Nat)
    (tk : List Char) (v : JsonValue)
    (hk1 : 1 ≤ k) (hkm : k ≤ maxRetries)
    (hbefore : ∀ i, i < k - 1 →
      ∃ t, ctx.provider i = .text t ∧ retryableInvalid ctx.loads t)
    (hpk : ctx.provider (k - 1) = .text tk)
    (hok : ctx.loads (clean_json_response tk) = .ok v)
    (hval : validateFull v = .ok true) :
    send_json_request ctx maxRetries = (.ok v, k) ∧
    gui_send_json_request ctx maxRetries = (.ok v, k) := by
  constructor
  · cases Nat.lt_or_ge k 2 with
    | inl hklt =>
      have hk : k = 1 := by omega
      subst hk
      simp only [Nat.sub_self] at hpk
      simp only [send_json_request, hpk]
      exact loopApi_now ctx maxRetries maxRetries tk 1 v (by omega) hok hval
    | inr hk2 =>
      obtain ⟨t0, hp0, hinv0⟩ := hbefore 0 (by omega)
      have hpre : ∀ j, j + 1 < k - 1 →
          ∃ t2, ctx.provider (1 + j) = .text t2 ∧ retryableInvalid ctx.loads t2 := by
        intro j hj
        obtain ⟨t2, hp2, hi2⟩ := hbefore (j + 1) (by omega)
        rw [show j + 1 = 1 + j by omega] at hp2
        exact ⟨t2, hp2, hi2⟩
      have hplast : ctx.provider (1 + (k - 1 - 1)) = .text tk := by
        rw [show 1 + (k - 1 - 1) = k - 1 by omega]
        exact hpk
      have hres := loopApi_chain (k - 1) ctx maxRetries maxRetries t0 1 tk v
        (by omega) (by omega) hinv0 hpre hplast hok hval
      rw [show 1 + (k - 1) = k by omega] at hres
      simp only [send_json_request, hp0]
      exact hres
  · have hpre : ∀ j, j < k - 1 →
        ∃ t2, ctx.provider (0 + j) = .text t2 ∧ retryableInvalid ctx.loads t2 := by
      intro j hj
      rw [Nat.zero_add]
      exact hbefore j hj
    have hplast : ctx.provider (0 + (k - 1)) = .text tk := by
      rw [Nat.zero_add]
      exact hpk
    have hres := loopGui_chain (k - 1) ctx maxRetries maxRetries 0 tk v
      (by omega) hpre hplast hok hval
    rw [show 0 + (k - 1) + 1 = k by omega] at hres
    exact hres

def ctxThird : Ctx :=
  { provider := fun i => if i < 2 then .text "prose".toList else .text goodText,
    loads := fun s =>
      if s = goodText then .ok goodObj
      else .error "Expecting value: line 1 column 1 (char 0)".toList }

theorem success_short_circuit_amended_witness :
    send_json_request ctxThird 3 = (.ok goodObj, 3) ∧
    gui_send_json_request ctxThird 3 = (.ok goodObj, 3) :=
  success_short_circuit_amended ctxThird 3 3 goodText goodObj (by omega) (by omega)
    (fun i hi => ⟨"prose".toList, by simp [ctxThird]; omega,
      Or.inl ⟨"Expecting value: line 1 column 1 (char 0)".toList, rfl⟩⟩)
    rfl rfl rfl

/-- C6: a transport-level provider failure is never retried: if the provider
calls before call index i (0-based) all returned retryable-invalid texts and
call i raises a transport error, both variants propagate that error at once,
with i+1 total provider calls and zero additional ones.  (In the
gigachat_json_api variant call 0 happens before the loop, so i = 0 needs no
bound; later calls exist only while retries remain, hence `i < maxRetries`.) -/
theorem transport_no_retry (ctx : Ctx) (maxRetries i e : Nat)
    (hT : ctx.provider i = .transport e)
    (hpre : ∀ j, j < i → ∃ t, ctx.provider j = .text t ∧ retryableInvalid ctx.loads t) :
    (i = 0 ∨ i < maxRetries →
      send_json_request ctx maxRetries = (.transport e, i + 1)) ∧
    (i < maxRetries →
      gui_send_json_request ctx maxRetries = (.transport e, i + 1)) := by
  constructor
  · intro hcase
    cases i with
    | zero => simp only [send_json_request, hT]
    | succ i2 =>
      have him : i2 + 1 < maxRetries := by
        rcases hcase with h0 | h
        · cases h0
        · exact h
      obtain ⟨t0, hp0, hinv0⟩ := hpre 0 (by omega)
      have hpre2 : ∀ j, j + 1 < i2 + 1 →
          ∃ t2, ctx.provider (1 + j) = .text t2 ∧ retryableInvalid ctx.loads t2 := by
        intro j hj
        obtain ⟨t2, hp2, hi2⟩ := hpre (j + 1) (by omega)
        rw [show j + 1 = 1 + j by omega] at hp2
        exact ⟨t2, hp2, hi2⟩
      have hplast : ctx.provider (1 + (i2 + 1 - 1)) = .transport e := by
        rw [show 1 + (i2 + 1 - 1) = i2 + 1 by omega]
        exact hT
      have hres := loopApi_transport (i2 + 1) ctx maxRetries maxRetries t0 1 e
        (by omega) (by omega) hinv0 hpre2 hplast
      rw [show 1 + (i2 + 1) = i2 + 1 + 1 by omega] at hres
      simp only [send_json_request, hp0]
      exact hres
  · intro him
    have hpre2 : ∀ j, j < i →
        ∃ t, ctx.provider (0 + j) = .text t ∧ retryableInvalid ctx.loads t := by
      intro j hj
      rw [Nat.zero_add]
      exact hpre j hj
    have hplast : ctx.provider (0 + i) = .transport e := by
      rw [Nat.zero_add]
      exact hT
    have hres := loopGui_transport i ctx maxRetries maxRetries 0 e him hpre2 hplast
    rw [Nat.zero_add] at hres
    exact hres

def ctxTrans : Ctx :=
  { provider := fun i => if i = 0 then .text "prose".toList else .transport 7,
    loads := fun _ => .error "Expecting value: line 1 column 1 (char 0)".toList }

theorem transport_no_retry_witness :
    send_json_request ctxTrans 3 = (.transport 7, 2) ∧
    gui_send_json_request ctxTrans 3 = (.transport 7, 2) :=
  ⟨(transport_no_retry ctxTrans 3 1 7 rfl
      (fun j hj => ⟨"prose".toList, by simp [ctxTrans]; omega,
        Or.inl ⟨"Expecting value: line 1 column 1 (char 0)".toList, rfl⟩⟩)).1
      (Or.inr (by omega)),
   (transport_no_retry ctxTrans 3 1 7 rfl
      (fun j hj => ⟨"prose".toList, by simp [ctxTrans]; omega,
        Or.inl ⟨"Expecting value: line 1 column 1 (char 0)".toList, rfl⟩⟩)).2
      (by omega)⟩

def rawArr : List Char := "[1]".toList

def ctxArr : Ctx :=
  { provider := fun _ => .text rawArr,
    loads := fun s =>
      if s = rawArr then .ok (.arr [.num 1])
      else .error "Expecting value: line 1 column 1 (char 0)".toList }

/-- C7: the claim is false as stated.  Here the retry budget is exhausted with
the last attempt failing schema validation (the text "[1]" decodes to a list,
on which the validator returns False), the function raises the validation
diagnostic, and that message does not contain the raw response text — the
f-string on lines 225-228 interpolates only the retry count and the validation
reason, never `response_text`. -/
theorem exhaust_message_cex :
    ctxArr.loads (clean_json_response rawArr) = .ok (.arr [.num 1]) ∧
    validateFull (.arr [.num 1]) = .ok false ∧
    send_json_request ctxArr 1 = (.err (validateExhaustedMsg 1), 1) ∧
    containsSeq (List.take 200 rawArr) (validateExhaustedMsg 1) = false :=
  ⟨rfl, rfl, rfl, by decide⟩

/-- C7 (amended): when `send_json_request` (gigachat_json_api variant) exhausts
the retry budget, the raised ValueError's message depends on the last failure
kind: after a decode failure it contains both the last raw response truncated
to 200 characters and the decode-error text; after a schema-validation failure
it is the fixed validation diagnostic, which carries the failure reason but not
the raw response. -/
theorem exhaust_message_amended (ctx : Ctx) (maxRetries : Nat)
    (h1 : 1 ≤ maxRetries)
    (hinv : ∀ i, i < maxRetries →
      ∃ t, ctx.provider i = .text t ∧ retryableInvalid ctx.loads t) :
    ∃ tL, ((maxRetries = 1 ∧ ctx.provider 0 = .text tL) ∨
        (2 ≤ maxRetries ∧ ctx.provider (maxRetries - 1) = .text tL)) ∧
      send_json_request ctx maxRetries =
        (.err (exhaustMsgFor ctx.loads maxRetries tL), maxRetries) ∧
      (∀ emsg, ctx.loads (clean_json_response tL) = .error emsg →
        containsSeq (List.take 200 tL) (exhaustMsgFor ctx.loads maxRetries tL) = true ∧
        containsSeq emsg (exhaustMsgFor ctx.loads maxRetries tL) = true) ∧
      (∀ v, ctx.loads (clean_json_response tL) = .ok v →
        exhaustMsgFor ctx.loads maxRetries tL = validateExhaustedMsg maxRetries ∧
        containsSeq structureMsg (validateExhaustedMsg maxRetries) = true) := by
  obtain ⟨t0, hp0, hinv0⟩ := hinv 0 (by omega)
  have hpre : ∀ j, j + 1 < maxRetries →
      ∃ t2, ctx.provider (1 + j) = .text t2 ∧ retryableInvalid ctx.loads t2 := by
    intro j hj
    obtain ⟨t2, hp2, hi2⟩ := hinv (j + 1) (by omega)
    rw [show j + 1 = 1 + j by omega] at hp2
    exact ⟨t2, hp2, hi2⟩
  obtain ⟨tL, _, hL2, hL3⟩ := loopApi_exhaust maxRetries ctx maxRetries t0 1 h1 hinv0 hpre
  rw [show 1 + (maxRetries - 1) = maxRetries by omega] at hL3
  refine ⟨tL, ?_, ?_, ?_, ?_⟩
  · rcases hL2 with ⟨hm1, rfl⟩ | ⟨hm2, hpL⟩
    · exact Or.inl ⟨hm1, hp0⟩
    · refine Or.inr ⟨hm2, ?_⟩
      rw [show maxRetries - 1 = 1 + (maxRetries - 2) by omega]
      exact hpL
  · simp only [send_json_request, hp0]
    exact hL3
  · intro emsg hdec
    rw [exhaustMsgFor, hdec]
    exact ⟨containsSeq_parseMsg_raw maxRetries (List.take 200 tL) emsg,
      containsSeq_parseMsg_emsg maxRetries (List.take 200 tL) emsg⟩
  · intro v hok
    rw [exhaustMsgFor, hok]
    exact ⟨rfl, containsSeq_validMsg_reason maxRetries⟩

theorem exhaust_message_amended_witness :
    ∃ tL, ((2 = 1 ∧ ctxAllBad.provider 0 = .text tL) ∨
        (2 ≤ 2 ∧ ctxAllBad.provider (2 - 1) = .text tL)) ∧
      send_json_request ctxAllBad 2 =
        (.err (exhaustMsgFor ctxAllBad.loads 2 tL), 2) ∧
      (∀ emsg, ctxAllBad.loads (clean_json_response tL) = .error emsg →
        containsSeq (List.take 200 tL) (exhaustMsgFor ctxAllBad.loads 2 tL) = true ∧
        containsSeq emsg (exhaustMsgFor ctxAllBad.loads 2 tL) = true) ∧
      (∀ v, ctxAllBad.loads (clean_json_response tL) = .ok v →
        exhaustMsgFor ctxAllBad.loads 2 tL = validateExhaustedMsg 2 ∧
        containsSeq structureMsg (validateExhaustedMsg 2) = true) :=
  exhaust_message_amended ctxAllBad 2 (by omega)
    (fun _ _ => ⟨"prose".toList, rfl,
      Or.inl ⟨"Expecting value: line 1 column 1 (char 0)".toList, rfl⟩⟩)

/-- C9: with `max_retries = 0` the gigachat_json_api variant still makes its
one pre-loop provider call, never examines the response (the conclusion holds
for every response text, valid ones included), and raises the post-loop
ValueError; the chatbot_gui variant makes zero provider calls and raises its
own post-loop ValueError. -/
theorem zero_retries_behavior (ctx : Ctx) (t : List Char)
    (ht : ctx.provider 0 = .text t) :
    send_json_request ctx 0 = (.err noValidAnswerMsg, 1) ∧
    gui_send_json_request ctx 0 = (.err exhaustedAllMsg, 0) := by
  constructor
  · simp only [send_json_request, ht]
    rfl
  · rfl

def ctxGood : Ctx :=
  { provider := fun _ => .text goodText,
    loads := fun s =>
      if s = goodText then .ok goodObj
      else .error "Expecting value: line 1 column 1 (char 0)".toList }

theorem zero_retries_behavior_witness :
    send_json_request ctxGood 0 = (.err noValidAnswerMsg, 1) ∧
    gui_send_json_request ctxGood 0 = (.err exhaustedAllMsg, 0) ∧
    ctxGood.loads (clean_json_response goodText) = .ok goodObj ∧
    validateFull goodObj = .ok true :=
  ⟨(zero_retries_behavior ctxGood goodText rfl).1,
    (zero_retries_behavior ctxGood goodText rfl).2, rfl, rfl⟩
